import Mathlib

/-!
Verification of the data-lifecycle integrity engine of the booking-platform
repository, together with its frontend request helpers.

The backend services (graph descriptor, cascading soft deletion,
depersonalization, discount scheduler, price resolver) are described in the
repository README and design documentation but their Python sources are not
part of the checked tree; those parts are modelled here from the spec, as
marked on each definition.  The frontend request helpers
(`RequestsMethods.getResource` / `postResource` / `deleteResource`) and the
sign-up handler are translated directly from the JavaScript sources.
-/

namespace BookingCore

/-- Entity identifiers of the relational object graph. -/
abbrev EntityId := Nat

/-! ## Ownership-graph closure

Modelled from the spec: the Graph Descriptor exposes the ordered children of
each entity and the Soft-Delete Engine walks the graph from a root with an
explicit queue, visiting every reachable entity.  We compute the reachable
set by iterating a one-step expansion until it is saturated; since each
step either saturates or strictly grows the (duplicate-free) visited list,
`univ.length` iterations always suffice. -/

/-- One expansion step of the visited set: append every child of a visited
node that has not been visited yet, without introducing duplicates. -/
def stepSet (c : EntityId → List EntityId) (s : List EntityId) : List EntityId :=
  s ++ ((s.flatMap c).dedup.filter (fun x => decide (x ∉ s)))

/-- The visited set after `n` expansion steps starting from `root`. -/
def closureN (c : EntityId → List EntityId) (root : EntityId) : Nat → List EntityId
  | 0 => [root]
  | n + 1 => stepSet c (closureN c root n)

/-- Reachability along the declared ownership edges. -/
inductive Reach (c : EntityId → List EntityId) : EntityId → EntityId → Prop
  | refl (a : EntityId) : Reach c a a
  | tail {a b d : EntityId} : Reach c a b → d ∈ c b → Reach c a d

theorem mem_stepSet {c : EntityId → List EntityId} {s : List EntityId} {x : EntityId} :
    x ∈ stepSet c s ↔ x ∈ s ∨ x ∈ s.flatMap c := by
  unfold stepSet
  simp only [List.mem_append, List.mem_filter, List.mem_dedup, decide_eq_true_eq]
  constructor
  · rintro (h | ⟨h, _⟩)
    · exact Or.inl h
    · exact Or.inr h
  · rintro (h | h)
    · exact Or.inl h
    · by_cases hs : x ∈ s
      · exact Or.inl hs
      · exact Or.inr ⟨h, hs⟩

theorem subset_stepSet (c : EntityId → List EntityId) (s : List EntityId) :
    s ⊆ stepSet c s :=
  fun _ hx => mem_stepSet.mpr (Or.inl hx)

theorem nodup_stepSet {c : EntityId → List EntityId} {s : List EntityId}
    (h : s.Nodup) : (stepSet c s).Nodup := by
  unfold stepSet
  refine List.nodup_append.mpr ⟨h, (s.flatMap c).nodup_dedup.filter _, ?_⟩
  intro x hx hx'
  have := (List.mem_filter.mp hx').2
  simp only [decide_eq_true_eq] at this
  exact this hx

theorem stepSet_eq_or_lt (c : EntityId → List EntityId) (s : List EntityId) :
    stepSet c s = s ∨ s.length < (stepSet c s).length := by
  cases hf : (s.flatMap c).dedup.filter (fun x => decide (x ∉ s)) with
  | nil =>
      left
      unfold stepSet
      rw [hf, List.append_nil]
  | cons a l =>
      right
      unfold stepSet
      rw [hf, List.length_append]
      simp

theorem stepSet_fix_closed {c : EntityId → List EntityId} {s : List EntityId}
    (h : stepSet c s = s) : ∀ x ∈ s, ∀ y ∈ c x, y ∈ s := by
  intro x hx y hy
  by_contra hns
  have hmem : y ∈ (s.flatMap c).dedup.filter (fun x => decide (x ∉ s)) := by
    refine List.mem_filter.mpr ⟨List.mem_dedup.mpr ?_, by simpa using hns⟩
    exact List.mem_flatMap.mpr ⟨x, hx, hy⟩
  have hlen : s.length + ((s.flatMap c).dedup.filter (fun x => decide (x ∉ s))).length
      = s.length := by
    have := congrArg List.length h
    simpa [stepSet, List.length_append] using this
  have : ((s.flatMap c).dedup.filter (fun x => decide (x ∉ s))).length = 0 := by omega
  rw [List.length_eq_zero] at this
  rw [this] at hmem
  exact (List.not_mem_nil y) hmem

theorem closureN_subset_succ (c : EntityId → List EntityId) (r : EntityId) (n : Nat) :
    closureN c r n ⊆ closureN c r (n + 1) :=
  subset_stepSet c (closureN c r n)

theorem closureN_subset_le (c : EntityId → List EntityId) (r : EntityId)
    {m n : Nat} (h : m ≤ n) : closureN c r m ⊆ closureN c r n := by
  induction h with
  | refl => exact fun _ hx => hx
  | step _ ih => exact fun x hx => closureN_subset_succ c r _ (ih hx)

theorem root_mem_closureN (c : EntityId → List EntityId) (r : EntityId) (n : Nat) :
    r ∈ closureN c r n :=
  closureN_subset_le c r (Nat.zero_le n) (by simp [closureN])

theorem nodup_closureN (c : EntityId → List EntityId) (r : EntityId) (n : Nat) :
    (closureN c r n).Nodup := by
  induction n with
  | zero => simp [closureN]
  | succ n ih => exact nodup_stepSet ih

theorem closureN_subset_univ {c : EntityId → List EntityId} {r : EntityId}
    {univ : List EntityId} (hr : r ∈ univ)
    (hc : ∀ x ∈ univ, ∀ y ∈ c x, y ∈ univ) :
    ∀ n, closureN c r n ⊆ univ := by
  intro n
  induction n with
  | zero =>
      intro x hx
      simp only [closureN, List.mem_singleton] at hx
      exact hx ▸ hr
  | succ n ih =>
      intro x hx
      rcases mem_stepSet.mp hx with h | h
      · exact ih h
      · rcases List.mem_flatMap.mp h with ⟨y, hy, hxy⟩
        exact hc y (ih hy) x hxy

theorem closureN_length_le {c : EntityId → List EntityId} {r : EntityId}
    {univ : List EntityId} (hr : r ∈ univ)
    (hc : ∀ x ∈ univ, ∀ y ∈ c x, y ∈ univ) (n : Nat) :
    (closureN c r n).length ≤ univ.length :=
  (List.subperm_of_subset (nodup_closureN c r n)
    (closureN_subset_univ hr hc n)).length_le

theorem closureN_stab {c : EntityId → List EntityId} {r : EntityId} {n : Nat}
    (h : closureN c r (n + 1) = closureN c r n) :
    ∀ m, closureN c r (n + m) = closureN c r n := by
  intro m
  induction m with
  | zero => rfl
  | succ k ih =>
      show stepSet c (closureN c r (n + k)) = closureN c r n
      rw [ih]
      exact h

theorem closureN_growth {c : EntityId → List EntityId} {r : EntityId} :
    ∀ n : Nat, (∀ m, m < n → closureN c r (m + 1) ≠ closureN c r m) →
      n + 1 ≤ (closureN c r n).length := by
  intro n
  induction n with
  | zero => intro _; simp [closureN]
  | succ n ih =>
      intro h
      have h1 : n + 1 ≤ (closureN c r n).length :=
        ih (fun m hm => h m (Nat.lt_succ_of_lt hm))
      have h2 : closureN c r (n + 1) ≠ closureN c r n := h n (Nat.lt_succ_self n)
      rcases stepSet_eq_or_lt c (closureN c r n) with he | hlt
      · exact absurd he h2
      · have : (closureN c r n).length < (closureN c r (n + 1)).length := hlt
        omega

theorem stepSet_closure_fix {c : EntityId → List EntityId} {r : EntityId}
    {univ : List EntityId} (hr : r ∈ univ)
    (hc : ∀ x ∈ univ, ∀ y ∈ c x, y ∈ univ) :
    stepSet c (closureN c r univ.length) = closureN c r univ.length := by
  by_cases hex : ∃ n, n < univ.length ∧ closureN c r (n + 1) = closureN c r n
  · obtain ⟨n, hn, heq⟩ := hex
    have hN : closureN c r univ.length = closureN c r n := by
      have := closureN_stab heq (univ.length - n)
      rwa [Nat.add_sub_cancel' (Nat.le_of_lt hn)] at this
    have hstep : stepSet c (closureN c r n) = closureN c r n := heq
    rw [hN]
    exact hstep
  · push_neg at hex
    have hg : univ.length + 1 ≤ (closureN c r univ.length).length :=
      closureN_growth univ.length (fun m hm => hex m hm)
    have hb : (closureN c r univ.length).length ≤ univ.length :=
      closureN_length_le hr hc univ.length
    omega

theorem closure_closed {c : EntityId → List EntityId} {r : EntityId}
    {univ : List EntityId} (hr : r ∈ univ)
    (hc : ∀ x ∈ univ, ∀ y ∈ c x, y ∈ univ) :
    ∀ x ∈ closureN c r univ.length, ∀ y ∈ c x, y ∈ closureN c r univ.length :=
  stepSet_fix_closed (stepSet_closure_fix hr hc)

theorem reach_mem_closure {c : EntityId → List EntityId} {r e : EntityId}
    {univ : List EntityId} (hr : r ∈ univ)
    (hc : ∀ x ∈ univ, ∀ y ∈ c x, y ∈ univ) (h : Reach c r e) :
    e ∈ closureN c r univ.length := by
  induction h with
  | refl => exact root_mem_closureN c r univ.length
  | tail _ hmem ih => exact closure_closed hr hc _ ih _ hmem

/-! ## Data model and lifecycle engines

Modelled from the spec: the entities of §3 (`User`, `LandlordProfile`,
`Property`, dependents) are represented uniformly as records carrying the
fields the lifecycle engines read and write; the declared ownership edges
(including the company-profile → employee edges) are the `children`
function of the store. -/

/-- Modelled from the spec: the per-entity record of §3.  `personal` holds
the personal free-text fields of a `User` (name, email, phone, ...);
`userRefs` holds the references this entity keeps to users (review
authorship, reservation requester, employee-of), each either a direct user
id or an opaque anonymized token. -/
structure Entity where
  isDeleted : Bool
  isDepersonalized : Bool
  anonymizedToken : Option String
  personal : List String
  userRefs : List (EntityId ⊕ String)
deriving DecidableEq

/-- Modelled from the spec: the transactional store of §6 — the finite
entity universe, the ownership edges of the Graph Descriptor, and the
current record of every entity. -/
structure Store where
  univ : List EntityId
  children : EntityId → List EntityId
  ent : EntityId → Entity

/-- Well-formedness of the graph declaration: ownership edges stay inside
the declared universe (no dangling reference). -/
def Store.WF (s : Store) : Prop :=
  ∀ x ∈ s.univ, ∀ y ∈ s.children x, y ∈ s.univ

instance (s : Store) : Decidable s.WF := by
  unfold Store.WF
  infer_instance

/-- Audit report of a cascade: the entities newly marked deleted. -/
abbrev DeletionReport := List EntityId

/-- Modelled from the spec: the error taxonomy entry of §7 raised when the
transaction cannot commit. -/
inductive PersistenceError where
  | persistenceError
deriving DecidableEq

/-- The set of entities the Soft-Delete Engine visits from `root`. -/
def reachSet (s : Store) (root : EntityId) : List EntityId :=
  closureN s.children root s.univ.length

def markDeleted (e : Entity) : Entity :=
  { e with isDeleted := true }

/-- Modelled from the spec: §4.2 `soft_delete(root) -> DeletionReport`.
An already-deleted root is a guarded no-op with an empty report; otherwise
every reachable entity is marked deleted and the newly affected entities
are reported.  The single-transaction commit is the simultaneous update. -/
def softDeleteCore (s : Store) (root : EntityId) : Store × DeletionReport :=
  if (s.ent root).isDeleted then (s, [])
  else
    ({ s with ent := fun x => if x ∈ reachSet s root then markDeleted (s.ent x) else s.ent x },
     (reachSet s root).filter (fun x => !(s.ent x).isDeleted))

/-- Modelled from the spec: the transactional wrapper of §4.2 — when the
store cannot commit the whole operation rolls back (the state component is
returned unchanged) and `PersistenceError` is reported. -/
def softDeleteTx (avail : Bool) (s : Store) (root : EntityId) :
    Store × Except PersistenceError DeletionReport :=
  if avail then
    ((softDeleteCore s root).1, Except.ok (softDeleteCore s root).2)
  else (s, Except.error PersistenceError.persistenceError)

/-- Modelled from the spec: §4.3's stable opaque token — a keyed hash of
the user's identifier and the secret salt (`HASH_SALT`), standing in for
the repository's HMAC-style construction. -/
def keyedHash (salt : String) (uid : EntityId) : Nat :=
  (salt.data.foldl (fun h ch => (h * 131 + ch.toNat) % 1000000007) 5381) * 1000000007 + uid

def anonToken (salt : String) (uid : EntityId) : String :=
  "anon-" ++ toString (keyedHash salt uid)

/-- Replace a direct reference to user `uid` by the opaque token `tok`,
preserving every other reference. -/
def substRef (uid : EntityId) (tok : String) : EntityId ⊕ String → EntityId ⊕ String
  | Sum.inl u => if u = uid then Sum.inr tok else Sum.inl u
  | Sum.inr t => Sum.inr t

def scrubRefs (uid : EntityId) (tok : String) (e : Entity) : Entity :=
  { e with userRefs := e.userRefs.map (substRef uid tok) }

def clearPersonal (e : Entity) : Entity :=
  { e with personal := e.personal.map (fun _ => "") }

/-- Modelled from the spec: §4.3 `depersonalize(user)`.  A user already
depersonalized is a guarded no-op; otherwise the user's personal fields
are cleared, the token is stored, every reference to the user anywhere in
the store is replaced by the token, and `isDepersonalized` becomes the
terminal marker — all as one committed update. -/
def depersonalizeCore (salt : String) (s : Store) (uid : EntityId) : Store :=
  if (s.ent uid).isDepersonalized then s
  else
    { s with ent := fun x =>
        if x = uid then
          { clearPersonal (scrubRefs uid (anonToken salt uid) (s.ent uid)) with
              isDepersonalized := true,
              anonymizedToken := some (anonToken salt uid) }
        else scrubRefs uid (anonToken salt uid) (s.ent x) }

/-- Modelled from the spec: the transactional wrapper of §4.3, mirroring
§4.2's all-or-nothing failure semantics. -/
def depersonalizeTx (avail : Bool) (salt : String) (s : Store) (uid : EntityId) :
    Store × Except PersistenceError Unit :=
  if avail then (depersonalizeCore salt s uid, Except.ok ())
  else (s, Except.error PersistenceError.persistenceError)

/-- The state-mutating operations the core services perform on the store
(§3: all transitions go through the three services; the Discount Scheduler
acts on discount records, not on `is_deleted`). -/
inductive CoreOp where
  | softDel (root : EntityId)
  | depers (salt : String) (uid : EntityId)

def applyOp : CoreOp → Store → Store
  | CoreOp.softDel r, s => (softDeleteCore s r).1
  | CoreOp.depers salt u, s => depersonalizeCore salt s u

theorem softDeleteCore_ent (s : Store) (root x : EntityId) :
    ((softDeleteCore s root).1).ent x =
      if (s.ent root).isDeleted then s.ent x
      else if x ∈ reachSet s root then markDeleted (s.ent x) else s.ent x := by
  unfold softDeleteCore
  split <;> rfl

theorem depersonalizeCore_ent (salt : String) (s : Store) (uid x : EntityId) :
    (depersonalizeCore salt s uid).ent x =
      if (s.ent uid).isDepersonalized then s.ent x
      else if x = uid then
        { clearPersonal (scrubRefs uid (anonToken salt uid) (s.ent uid)) with
            isDepersonalized := true,
            anonymizedToken := some (anonToken salt uid) }
      else scrubRefs uid (anonToken salt uid) (s.ent x) := by
  unfold depersonalizeCore
  split <;> rfl

theorem scrubRefs_isDeleted (uid : EntityId) (tok : String) (e : Entity) :
    (scrubRefs uid tok e).isDeleted = e.isDeleted := rfl

theorem softDeleteCore_reach_deleted {s : Store} {root e : EntityId}
    (hwf : s.WF) (hr : root ∈ s.univ) (hlive : (s.ent root).isDeleted = false)
    (hreach : Reach s.children root e) :
    (((softDeleteCore s root).1).ent e).isDeleted = true := by
  have hmem : e ∈ reachSet s root := reach_mem_closure hr hwf hreach
  rw [softDeleteCore_ent, hlive]
  simp [hmem, markDeleted]

theorem softDeleteCore_monotone {s : Store} {root e : EntityId}
    (h : (s.ent e).isDeleted = true) :
    (((softDeleteCore s root).1).ent e).isDeleted = true := by
  rw [softDeleteCore_ent]
  split
  · exact h
  · split
    · rfl
    · exact h

theorem depersonalizeCore_isDeleted (salt : String) (s : Store) (uid e : EntityId) :
    ((depersonalizeCore salt s uid).ent e).isDeleted = (s.ent e).isDeleted := by
  rw [depersonalizeCore_ent]
  split
  · rfl
  · split
    · next h => subst h; rfl
    · rfl

theorem root_mem_reachSet (s : Store) (root : EntityId) :
    root ∈ reachSet s root :=
  root_mem_closureN s.children root s.univ.length

theorem softDeleteCore_deleted_root {s : Store} {root : EntityId}
    (h : (s.ent root).isDeleted = true) : softDeleteCore s root = (s, []) := by
  unfold softDeleteCore
  rw [if_pos h]

theorem softDeleteCore_root_deleted (s : Store) (root : EntityId) :
    (((softDeleteCore s root).1).ent root).isDeleted = true := by
  by_cases h : (s.ent root).isDeleted = true
  · rw [softDeleteCore_ent, if_pos h]
    exact h
  · have h' : (s.ent root).isDeleted = false := by simpa using h
    rw [softDeleteCore_ent, h']
    simp [root_mem_reachSet, markDeleted]

theorem depersonalizeCore_noop {salt : String} {s : Store} {uid : EntityId}
    (h : (s.ent uid).isDepersonalized = true) :
    depersonalizeCore salt s uid = s := by
  unfold depersonalizeCore
  rw [if_pos h]

theorem depersonalizeCore_sets_marker (salt : String) (s : Store) (uid : EntityId) :
    ((depersonalizeCore salt s uid).ent uid).isDepersonalized = true := by
  by_cases h : (s.ent uid).isDepersonalized = true
  · rw [depersonalizeCore_noop h]
    exact h
  · rw [depersonalizeCore_ent, if_neg h, if_pos rfl]

theorem substRef_ne_inl (uid : EntityId) (tok : String) (r : EntityId ⊕ String) :
    substRef uid tok r ≠ Sum.inl uid := by
  cases r with
  | inl u =>
      by_cases h : u = uid
      · simp [substRef, h]
      · simp [substRef, h]
  | inr t => simp [substRef]

/-- A two-entity fixture: entity 0 owns entity 1, and entity 1 keeps a
direct reference to user 0. -/
def wEnt : Entity :=
  { isDeleted := false, isDepersonalized := false, anonymizedToken := none,
    personal := ["Alice", "alice@mail.example"], userRefs := [Sum.inl 0] }

def wStore : Store :=
  { univ := [0, 1],
    children := fun x => if x = 0 then [1] else [],
    ent := fun _ => wEnt }

/-! ## Discount scheduler and price resolver

Modelled from the spec: §4.4's periodic scheduler transitions each
discount's lifecycle state from the current time, skipping records with a
malformed date range (§7 `RecordValidationError`), and §4.5's pure price
resolver picks the best applicable active discount. -/

inductive DStatus where
  | scheduled
  | active
  | expired
  | cancelled
deriving DecidableEq

inductive DiscountValue where
  | percent (p : Nat)
  | fixedAmount (a : Nat)
deriving DecidableEq

inductive DScope where
  | allUsers
  | specificUsers (users : List EntityId)
deriving DecidableEq

structure Discount where
  status : DStatus
  startsAt : Nat
  endsAt : Nat
  value : DiscountValue
  scope : DScope
deriving DecidableEq

/-- A malformed date range (§7 `RecordValidationError`) is one whose end
does not lie strictly after its start. -/
def validRange (d : Discount) : Bool :=
  decide (d.startsAt < d.endsAt)

/-- Modelled from the spec: the per-record transition of one §4.4
scheduler cycle at current time `t`.  Malformed records are skipped
unchanged; `scheduled` becomes `active` inside its window; `active`
becomes `expired` once the window has passed; everything else is left
unchanged. -/
def stepDiscount (t : Nat) (d : Discount) : Discount :=
  if validRange d = false then d
  else
    match d.status with
    | DStatus.scheduled =>
        if d.startsAt ≤ t ∧ t < d.endsAt then { d with status := DStatus.active } else d
    | DStatus.active =>
        if d.endsAt ≤ t then { d with status := DStatus.expired } else d
    | _ => d

/-- Modelled from the spec: one scheduler cycle maps the transition over
the whole discount batch. -/
def runCycle (t : Nat) (ds : List Discount) : List Discount :=
  ds.map (stepDiscount t)

/-- Modelled from the spec: cancellation (performed by the API layer) is
allowed from `scheduled` or `active` only; it never touches an `expired`
or already `cancelled` discount. -/
def cancelDiscount (d : Discount) : Discount :=
  match d.status with
  | DStatus.scheduled => { d with status := DStatus.cancelled }
  | DStatus.active => { d with status := DStatus.cancelled }
  | _ => d

/-- The operations that may touch a discount record over its lifetime. -/
inductive DiscountOp where
  | cycle (t : Nat)
  | cancel

def applyDiscountOp : DiscountOp → Discount → Discount
  | DiscountOp.cycle t, d => stepDiscount t d
  | DiscountOp.cancel, d => cancelDiscount d

def runDiscountOps (ops : List DiscountOp) (d : Discount) : Discount :=
  ops.foldl (fun d op => applyDiscountOp op d) d

/-- Position of a status along the temporal order
scheduled → active → expired (cancelled is terminal as well). -/
def statusRank : DStatus → Nat
  | DStatus.scheduled => 0
  | DStatus.active => 1
  | DStatus.expired => 2
  | DStatus.cancelled => 3

/-- The price after applying a discount to a base price (minor-unit
integer amounts). -/
def finalPrice (base : Nat) (d : Discount) : Nat :=
  match d.value with
  | DiscountValue.percent p => base - base * p / 100
  | DiscountValue.fixedAmount a => base - min a base

/-- Scope specificity: a user-specific scope beats the all-users scope. -/
def scopeRank : DScope → Nat
  | DScope.specificUsers _ => 0
  | DScope.allUsers => 1

/-- Whether a discount is a candidate for this viewer: it must be active
and its scope must cover the viewer. -/
def applicableTo (viewer : EntityId) (d : Discount) : Bool :=
  decide (d.status = DStatus.active) &&
    (match d.scope with
     | DScope.allUsers => true
     | DScope.specificUsers us => us.contains viewer)

/-- The resolver's selection key: lowest final price first, then most
specific scope, then earliest start. -/
def resolveKey (base : Nat) (d : Discount) : Nat × Nat × Nat :=
  (finalPrice base d, scopeRank d.scope, d.startsAt)

def keyLe (k1 k2 : Nat × Nat × Nat) : Prop :=
  k1.1 < k2.1 ∨ (k1.1 = k2.1 ∧
    (k1.2.1 < k2.2.1 ∨ (k1.2.1 = k2.2.1 ∧ k1.2.2 ≤ k2.2.2)))

def keyLt (k1 k2 : Nat × Nat × Nat) : Prop :=
  k1.1 < k2.1 ∨ (k1.1 = k2.1 ∧
    (k1.2.1 < k2.2.1 ∨ (k1.2.1 = k2.2.1 ∧ k1.2.2 < k2.2.2)))

instance (k1 k2 : Nat × Nat × Nat) : Decidable (keyLe k1 k2) := by
  unfold keyLe
  infer_instance

instance (k1 k2 : Nat × Nat × Nat) : Decidable (keyLt k1 k2) := by
  unfold keyLt
  infer_instance

theorem keyLe_refl (k : Nat × Nat × Nat) : keyLe k k := by
  unfold keyLe
  omega

theorem keyLe_trans {k1 k2 k3 : Nat × Nat × Nat}
    (h1 : keyLe k1 k2) (h2 : keyLe k2 k3) : keyLe k1 k3 := by
  unfold keyLe at *
  omega

theorem keyLt_le {k1 k2 : Nat × Nat × Nat} (h : keyLt k1 k2) : keyLe k1 k2 := by
  unfold keyLt at h
  unfold keyLe
  omega

theorem not_keyLt_le {k1 k2 : Nat × Nat × Nat} (h : ¬ keyLt k1 k2) : keyLe k2 k1 := by
  unfold keyLt at h
  unfold keyLe
  omega

/-- One comparison step of the resolver's fold over the candidates. -/
def pickBetter (base : Nat) (acc : Option Discount) (d : Discount) : Option Discount :=
  match acc with
  | none => some d
  | some b => if keyLt (resolveKey base d) (resolveKey base b) then some d else some b

/-- Modelled from the spec: §4.5 / §4.4 tie-break — among the applicable
active discounts pick the one minimising the selection key. -/
def resolveBest (base : Nat) (viewer : EntityId) (ds : List Discount) : Option Discount :=
  (ds.filter (applicableTo viewer)).foldl (pickBetter base) none

theorem foldl_pickBetter_mem {base : Nat} :
    ∀ (l : List Discount) (acc : Option Discount) (b : Discount),
      l.foldl (pickBetter base) acc = some b → acc = some b ∨ b ∈ l := by
  intro l
  induction l with
  | nil => intro acc b h; exact Or.inl h
  | cons d tl ih =>
      intro acc b h
      rcases ih (pickBetter base acc d) b h with h1 | h1
      · rcases acc with _ | b0
        · simp only [pickBetter] at h1
          right
          rw [List.mem_cons]
          left
          exact (Option.some.inj h1).symm
        · simp only [pickBetter] at h1
          rcases Classical.em (keyLt (resolveKey base d) (resolveKey base b0)) with hk | hk
          · rw [if_pos hk] at h1
            right
            rw [List.mem_cons]
            left
            exact (Option.some.inj h1).symm
          · rw [if_neg hk] at h1
            exact Or.inl h1
      · right
        exact List.mem_cons_of_mem d h1

theorem foldl_pickBetter_min {base : Nat} :
    ∀ (l : List Discount) (acc : Option Discount) (b : Discount),
      l.foldl (pickBetter base) acc = some b →
      (∀ d ∈ l, keyLe (resolveKey base b) (resolveKey base d)) ∧
      (∀ b0, acc = some b0 → keyLe (resolveKey base b) (resolveKey base b0)) := by
  intro l
  induction l with
  | nil =>
      intro acc b h
      refine ⟨by intro d hd; exact absurd hd (List.not_mem_nil d), ?_⟩
      intro b0 hb0
      rw [hb0] at h
      have : b0 = b := Option.some.inj h
      rw [this]
      exact keyLe_refl _
  | cons d tl ih =>
      intro acc b h
      have ih' := ih (pickBetter base acc d) b h
      have hbd : keyLe (resolveKey base b) (resolveKey base d) := by
        rcases acc with _ | b0
        · exact ih'.2 d rfl
        · rcases Classical.em (keyLt (resolveKey base d) (resolveKey base b0)) with hk | hk
          · exact ih'.2 d (by simp only [pickBetter]; rw [if_pos hk])
          · have hb0 : keyLe (resolveKey base b) (resolveKey base b0) :=
              ih'.2 b0 (by simp only [pickBetter]; rw [if_neg hk])
            exact keyLe_trans hb0 (not_keyLt_le hk)
      constructor
      · intro d' hd'
        rcases List.mem_cons.mp hd' with h1 | h1
        · rw [h1]; exact hbd
        · exact ih'.1 d' h1
      · intro b0 hb0
        rcases hb0
        rcases Classical.em (keyLt (resolveKey base d) (resolveKey base b0)) with hk | hk
        · exact keyLe_trans hbd (keyLt_le hk)
        · exact ih'.2 b0 (by simp only [pickBetter]; rw [if_neg hk])

theorem stepDiscount_expired (t : Nat) (d : Discount)
    (h : d.status = DStatus.expired) : stepDiscount t d = d := by
  unfold stepDiscount
  rw [h]
  split <;> rfl

theorem stepDiscount_cancelled (t : Nat) (d : Discount)
    (h : d.status = DStatus.cancelled) : stepDiscount t d = d := by
  unfold stepDiscount
  rw [h]
  split <;> rfl

theorem cancelDiscount_expired (d : Discount)
    (h : d.status = DStatus.expired) : cancelDiscount d = d := by
  unfold cancelDiscount
  rw [h]

theorem applyDiscountOp_expired (op : DiscountOp) (d : Discount)
    (h : d.status = DStatus.expired) : applyDiscountOp op d = d := by
  cases op with
  | cycle t => exact stepDiscount_expired t d h
  | cancel => exact cancelDiscount_expired d h

theorem runDiscountOps_expired (ops : List DiscountOp) (d : Discount)
    (h : d.status = DStatus.expired) :
    (runDiscountOps ops d).status = DStatus.expired := by
  induction ops generalizing d with
  | nil => exact h
  | cons op tl ih =>
      show (tl.foldl (fun d op => applyDiscountOp op d) (applyDiscountOp op d)).status
        = DStatus.expired
      rw [applyDiscountOp_expired op d h]
      exact ih d h

theorem statusRank_stepDiscount (t : Nat) (d : Discount) :
    statusRank d.status ≤ statusRank (stepDiscount t d).status := by
  unfold stepDiscount
  split
  · exact Nat.le_refl _
  · cases h : d.status with
    | scheduled =>
        dsimp only
        split
        · simp [statusRank]
        · simp [h]
    | active =>
        dsimp only
        split
        · simp [statusRank]
        · simp [h]
    | expired =>
        dsimp only
        simp [h]
    | cancelled =>
        dsimp only
        simp [h]

theorem statusRank_runCycles (ts : List Nat) (d : Discount) :
    statusRank d.status
      ≤ statusRank (runDiscountOps (ts.map DiscountOp.cycle) d).status := by
  induction ts generalizing d with
  | nil => exact Nat.le_refl _
  | cons t tl ih =>
      have h1 : statusRank d.status ≤ statusRank (stepDiscount t d).status :=
        statusRank_stepDiscount t d
      have h2 := ih (stepDiscount t d)
      exact Nat.le_trans h1 h2

theorem cancelled_only_from_live (op : DiscountOp) (d : Discount)
    (h : (applyDiscountOp op d).status = DStatus.cancelled) :
    d.status = DStatus.scheduled ∨ d.status = DStatus.active
      ∨ d.status = DStatus.cancelled := by
  cases hs : d.status with
  | scheduled => exact Or.inl rfl
  | active => exact Or.inr (Or.inl rfl)
  | cancelled => exact Or.inr (Or.inr rfl)
  | expired =>
      exfalso
      rw [applyDiscountOp_expired op d hs, hs] at h
      exact absurd h (by simp)

theorem validRange_false_step (t : Nat) (d : Discount)
    (h : validRange d = false) : stepDiscount t d = d := by
  unfold stepDiscount
  rw [if_pos h]

/-- A malformed-range discount: active, but its window ends before it
starts. -/
def badDiscount : Discount :=
  { status := DStatus.active, startsAt := 5, endsAt := 3,
    value := DiscountValue.percent 10, scope := DScope.allUsers }

/-- A scheduled discount with a well-formed window containing time 4. -/
def schedDiscount : Discount :=
  { status := DStatus.scheduled, startsAt := 1, endsAt := 10,
    value := DiscountValue.percent 10, scope := DScope.allUsers }

/-- An all-users discount yielding a final price of 80 on base 100. -/
def discountAllUsers : Discount :=
  { status := DStatus.active, startsAt := 1, endsAt := 100,
    value := DiscountValue.percent 20, scope := DScope.allUsers }

/-- A viewer-specific discount also yielding 80 on base 100, starting
later than `discountAllUsers`. -/
def discountThisUser : Discount :=
  { status := DStatus.active, startsAt := 2, endsAt := 100,
    value := DiscountValue.percent 20, scope := DScope.specificUsers [7] }

end BookingCore

namespace Frontend

/-! ## Frontend request helpers

Translated from `frontend/src/services/methods.mjs`
(`RequestsMethods.getResource` / `postResource` / `deleteResource`), from
`frontend/src/services/authorizationService.mjs`, and from the sign-up
handler in `SignUp.jsx`.  A settled fetch is modelled by the response's
HTTP status and its parsed JSON body; the promise combinators `.then` and
`.catch` are modelled explicitly so that resolution versus rejection is
observable. -/

/-- A JavaScript value as it flows through the request helpers. -/
inductive JsVal where
  | undef
  | num (n : Nat)
  | str (s : String)
  | obj (fields : List (String × JsVal))

/-- Property access on a parsed JSON value: a missing field or a
non-object receiver yields `undefined`. -/
def JsVal.getField : JsVal → String → JsVal
  | JsVal.obj fields, name =>
      match fields.find? (fun p => p.1 == name) with
      | some p => p.2
      | none => JsVal.undef
  | _, _ => JsVal.undef

/-- A settled promise: JavaScript promises either resolve or reject with a
value. -/
inductive JsPromise (α : Type) where
  | resolved (v : α)
  | rejected (v : α)

/-- `.then(onFulfilled)`: the handler runs on a resolved value and may
itself resolve or reject; a rejection passes through. -/
def JsPromise.thenP {α : Type} : JsPromise α → (α → JsPromise α) → JsPromise α
  | JsPromise.resolved v, f => f v
  | JsPromise.rejected v, _ => JsPromise.rejected v

/-- `.catch(onRejected)` with a handler that returns a plain value: a
rejection is converted into a resolution, a resolution passes through. -/
def JsPromise.catchP {α : Type} : JsPromise α → (α → α) → JsPromise α
  | JsPromise.resolved v, _ => JsPromise.resolved v
  | JsPromise.rejected v, f => JsPromise.resolved (f v)

/-- The values travelling through a request-method promise chain: either
the `Response` object of the fetch or a plain JavaScript value. -/
inductive ChainVal where
  | respV (status : Nat) (body : JsVal)
  | jsV (v : JsVal)

/-- `Response.ok`: true exactly for 2xx statuses. -/
def respOk (status : Nat) : Bool :=
  decide (200 ≤ status) && decide (status < 300)

/-- `x.status` in the catch handlers: the numeric status of a `Response`,
`undefined` on anything else. -/
def ChainVal.statusOf : ChainVal → JsVal
  | ChainVal.respV status _ => JsVal.num status
  | ChainVal.jsV _ => JsVal.undef

/-- `x.result` in the second `.then` of `getResource`/`deleteResource`:
the `result` field of the parsed body, `undefined` on a `Response`. -/
def ChainVal.resultField : ChainVal → JsVal
  | ChainVal.jsV v => v.getField "result"
  | ChainVal.respV _ _ => JsVal.undef

namespace RequestsMethods

/-- `methods.mjs` lines 4-16: resolve the parsed body's `result` field when
`response.ok`, otherwise reject the response and convert the rejection to
the numeric status in `.catch`. -/
def getResource (status : Nat) (body : JsVal) : JsPromise ChainVal :=
  (((JsPromise.resolved (ChainVal.respV status body)).thenP (fun v =>
      match v with
      | ChainVal.respV st b =>
          if respOk st then JsPromise.resolved (ChainVal.jsV b)
          else JsPromise.rejected (ChainVal.respV st b)
      | ChainVal.jsV x => JsPromise.rejected (ChainVal.jsV x))).thenP (fun v =>
      JsPromise.resolved (ChainVal.jsV v.resultField))).catchP (fun v =>
      ChainVal.jsV v.statusOf)

/-- `methods.mjs` lines 18-41: resolve the parsed body only when the
status is exactly 200, otherwise reject and convert to the numeric status
in `.catch`; the second `.then` is the identity. -/
def postResource (status : Nat) (body : JsVal) : JsPromise ChainVal :=
  (((JsPromise.resolved (ChainVal.respV status body)).thenP (fun v =>
      match v with
      | ChainVal.respV st b =>
          if st = 200 then JsPromise.resolved (ChainVal.jsV b)
          else JsPromise.rejected (ChainVal.respV st b)
      | ChainVal.jsV x => JsPromise.rejected (ChainVal.jsV x))).thenP (fun v =>
      JsPromise.resolved v)).catchP (fun v =>
      ChainVal.jsV v.statusOf)

/-- `methods.mjs` lines 43-64: same shape as `getResource`. -/
def deleteResource (status : Nat) (body : JsVal) : JsPromise ChainVal :=
  (((JsPromise.resolved (ChainVal.respV status body)).thenP (fun v =>
      match v with
      | ChainVal.respV st b =>
          if respOk st then JsPromise.resolved (ChainVal.jsV b)
          else JsPromise.rejected (ChainVal.respV st b)
      | ChainVal.jsV x => JsPromise.rejected (ChainVal.jsV x))).thenP (fun v =>
      JsPromise.resolved (ChainVal.jsV v.resultField))).catchP (fun v =>
      ChainVal.jsV v.statusOf)

end RequestsMethods

namespace AuthorizationService

/-- `authorizationService.mjs` lines 4-8: `signUp` posts the form to
`registration/`; the request path does not affect the settled value. -/
def signUp (status : Nat) (body : JsVal) : JsPromise ChainVal :=
  RequestsMethods.postResource status body

end AuthorizationService

/-- What the sign-up submit handler does after the request settles. -/
inductive NavAction where
  | navigate (path : String)
  | logError
deriving DecidableEq

namespace Registration

/-- `SignUp.jsx` lines 27-36: `switch (response) { case 400: log; default:
navigate("/signIn") }` — only the exact value 400 avoids navigation. -/
def handleSignUpResponse (v : ChainVal) : NavAction :=
  match v with
  | ChainVal.jsV (JsVal.num n) =>
      if n = 400 then NavAction.logError else NavAction.navigate "/signIn"
  | _ => NavAction.navigate "/signIn"

/-- `SignUp.jsx` lines 24-37: the handler runs in `.then`, so it only
fires when the sign-up promise resolves. -/
def registration (status : Nat) (body : JsVal) : Option NavAction :=
  match AuthorizationService.signUp status body with
  | JsPromise.resolved v => some (handleSignUpResponse v)
  | JsPromise.rejected _ => none

end Registration

theorem postResource_eq (status : Nat) (body : JsVal) :
    RequestsMethods.postResource status body
      = JsPromise.resolved
          (if status = 200 then ChainVal.jsV body
           else ChainVal.jsV (JsVal.num status)) := by
  unfold RequestsMethods.postResource
  by_cases h : status = 200
  · simp [JsPromise.thenP, JsPromise.catchP, h]
  · simp [JsPromise.thenP, JsPromise.catchP, h, ChainVal.statusOf]

theorem getResource_eq (status : Nat) (body : JsVal) :
    RequestsMethods.getResource status body
      = JsPromise.resolved
          (if respOk status then ChainVal.jsV (body.getField "result")
           else ChainVal.jsV (JsVal.num status)) := by
  unfold RequestsMethods.getResource
  by_cases h : respOk status = true
  · simp [JsPromise.thenP, JsPromise.catchP, h, ChainVal.resultField]
  · have h' : respOk status = false := by simpa using h
    simp [JsPromise.thenP, JsPromise.catchP, h', ChainVal.statusOf]

theorem deleteResource_eq (status : Nat) (body : JsVal) :
    RequestsMethods.deleteResource status body
      = JsPromise.resolved
          (if respOk status then ChainVal.jsV (body.getField "result")
           else ChainVal.jsV (JsVal.num status)) := by
  unfold RequestsMethods.deleteResource
  by_cases h : respOk status = true
  · simp [JsPromise.thenP, JsPromise.catchP, h, ChainVal.resultField]
  · have h' : respOk status = false := by simpa using h
    simp [JsPromise.thenP, JsPromise.catchP, h', ChainVal.statusOf]

theorem handleSignUpResponse_ne_400 (v : ChainVal)
    (h : ∀ w, v = ChainVal.jsV w → w = JsVal.num 400 → False) :
    Registration.handleSignUpResponse v = NavAction.navigate "/signIn" := by
  unfold Registration.handleSignUpResponse
  cases v with
  | respV st b => rfl
  | jsV w =>
      cases w with
      | undef => rfl
      | str s => rfl
      | obj fields => rfl
      | num n =>
          dsimp only
          rw [if_neg]
          intro hn
          exact h (JsVal.num n) rfl (by rw [hn])

end Frontend

section Claims

open BookingCore Frontend

/-- C1: every entity reachable from a live root via the declared ownership
graph is deleted after `soft_delete(R)` commits, and `is_deleted` is
monotone — it moves false→true only and no core operation ever reverses
it. -/
theorem claim1_cascade_complete_and_monotone :
    (∀ (s : Store) (root e : EntityId),
       s.WF → root ∈ s.univ → (s.ent root).isDeleted = false →
       Reach s.children root e →
       (((softDeleteCore s root).1).ent e).isDeleted = true) ∧
    (∀ (op : CoreOp) (s : Store) (e : EntityId),
       (s.ent e).isDeleted = true →
       ((applyOp op s).ent e).isDeleted = true) := by
  constructor
  · intro s root e hwf hr hlive hreach
    exact softDeleteCore_reach_deleted hwf hr hlive hreach
  · intro op s e h
    cases op with
    | softDel r => exact softDeleteCore_monotone h
    | depers salt u =>
        show ((depersonalizeCore salt s u).ent e).isDeleted = true
        rw [depersonalizeCore_isDeleted]
        exact h

/-- Witness for C1 on the two-entity fixture: entity 1 is reachable from
root 0 and is deleted after the cascade; a later depersonalization does
not reverse the flag. -/
theorem claim1_witness :
    wStore.WF ∧ 0 ∈ wStore.univ ∧ (wStore.ent 0).isDeleted = false ∧
    Reach wStore.children 0 1 ∧
    (((softDeleteCore wStore 0).1).ent 1).isDeleted = true ∧
    ((applyOp (CoreOp.depers "salt" 0) (softDeleteCore wStore 0).1).ent 1).isDeleted = true :=
  ⟨by decide, by decide, rfl,
   Reach.tail (Reach.refl 0) (by decide),
   claim1_cascade_complete_and_monotone.1 wStore 0 1 (by decide) (by decide) rfl
     (Reach.tail (Reach.refl 0) (by decide)),
   claim1_cascade_complete_and_monotone.2 (CoreOp.depers "salt" 0) (softDeleteCore wStore 0).1 1
     (claim1_cascade_complete_and_monotone.1 wStore 0 1 (by decide) (by decide) rfl
       (Reach.tail (Reach.refl 0) (by decide)))⟩

/-- C7: `soft_delete` is idempotent — an already-deleted root is a no-op
with an empty report and no error, and a second call on the same root
leaves the state of the first call unchanged with an empty report. -/
theorem claim7_soft_delete_idempotent :
    ∀ (s : Store) (root : EntityId),
      ((s.ent root).isDeleted = true → softDeleteCore s root = (s, [])) ∧
      softDeleteCore (softDeleteCore s root).1 root = ((softDeleteCore s root).1, []) ∧
      softDeleteTx true (softDeleteCore s root).1 root
        = ((softDeleteCore s root).1, Except.ok []) := by
  intro s root
  have h2 : softDeleteCore (softDeleteCore s root).1 root = ((softDeleteCore s root).1, []) :=
    softDeleteCore_deleted_root (softDeleteCore_root_deleted s root)
  refine ⟨fun h => softDeleteCore_deleted_root h, h2, ?_⟩
  simp [softDeleteTx, h2]

/-- Witness for C7 on the two-entity fixture: after deleting root 0 the
root is deleted, and the first conjunct applied to the resulting store
shows the second deletion is a no-op with an empty report. -/
theorem claim7_witness :
    (((softDeleteCore wStore 0).1).ent 0).isDeleted = true ∧
    softDeleteCore (softDeleteCore wStore 0).1 0 = ((softDeleteCore wStore 0).1, []) :=
  ⟨by decide,
   (claim7_soft_delete_idempotent (softDeleteCore wStore 0).1 0).1 (by decide)⟩

/-- C8: `depersonalize` is idempotent — once `is_depersonalized` is true,
re-invocation mutates nothing and raises no error, and running the
operation twice equals running it once. -/
theorem claim8_depersonalize_idempotent :
    ∀ (salt : String) (s : Store) (uid : EntityId),
      ((s.ent uid).isDepersonalized = true →
        depersonalizeCore salt s uid = s ∧
        depersonalizeTx true salt s uid = (s, Except.ok ())) ∧
      depersonalizeCore salt (depersonalizeCore salt s uid) uid
        = depersonalizeCore salt s uid := by
  intro salt s uid
  constructor
  · intro h
    refine ⟨depersonalizeCore_noop h, ?_⟩
    simp [depersonalizeTx, depersonalizeCore_noop h]
  · exact depersonalizeCore_noop (depersonalizeCore_sets_marker salt s uid)

/-- Witness for C8 on the two-entity fixture: after a first
depersonalization of user 0 the marker is set, and a second invocation
mutates nothing and commits without error. -/
theorem claim8_witness :
    ((depersonalizeCore "salt" wStore 0).ent 0).isDepersonalized = true ∧
    depersonalizeCore "salt" (depersonalizeCore "salt" wStore 0) 0
      = depersonalizeCore "salt" wStore 0 ∧
    depersonalizeTx true "salt" (depersonalizeCore "salt" wStore 0) 0
      = (depersonalizeCore "salt" wStore 0, Except.ok ()) :=
  ⟨by decide,
   ((claim8_depersonalize_idempotent "salt" (depersonalizeCore "salt" wStore 0) 0).1
     (by decide)).1,
   ((claim8_depersonalize_idempotent "salt" (depersonalizeCore "salt" wStore 0) 0).1
     (by decide)).2⟩

/-- C2: after `depersonalize(U)` on a not-yet-depersonalized user, the
user's personal fields are cleared, the anonymized token is present and is
the keyed hash of the user's identifier and the secret salt, and every
reference to the user held by any entity has been replaced by that token. -/
theorem claim2_depersonalize_scrubs :
    ∀ (salt : String) (s : Store) (uid : EntityId),
      (s.ent uid).isDepersonalized = false →
      (∀ f ∈ ((depersonalizeCore salt s uid).ent uid).personal, f = "") ∧
      ((depersonalizeCore salt s uid).ent uid).anonymizedToken = some (anonToken salt uid) ∧
      ((depersonalizeCore salt s uid).ent uid).anonymizedToken ≠ none ∧
      ((depersonalizeCore salt s uid).ent uid).isDepersonalized = true ∧
      (∀ x, ((depersonalizeCore salt s uid).ent x).userRefs
          = ((s.ent x).userRefs).map (substRef uid (anonToken salt uid))) ∧
      (∀ x r, r ∈ ((depersonalizeCore salt s uid).ent x).userRefs → r ≠ Sum.inl uid) := by
  intro salt s uid h
  have hne : ¬ (s.ent uid).isDepersonalized = true := by simp [h]
  have hrefs : ∀ x, ((depersonalizeCore salt s uid).ent x).userRefs
      = ((s.ent x).userRefs).map (substRef uid (anonToken salt uid)) := by
    intro x
    rw [depersonalizeCore_ent, if_neg hne]
    by_cases hx : x = uid
    · subst hx
      rw [if_pos rfl]
      rfl
    · rw [if_neg hx]
      rfl
  refine ⟨?_, ?_, ?_, ?_, hrefs, ?_⟩
  · intro f hf
    rw [depersonalizeCore_ent, if_neg hne, if_pos rfl] at hf
    have : f ∈ ((scrubRefs uid (anonToken salt uid) (s.ent uid)).personal).map
        (fun _ => "") := hf
    rcases List.mem_map.mp this with ⟨a, _, ha⟩
    exact ha.symm
  · rw [depersonalizeCore_ent, if_neg hne, if_pos rfl]
  · rw [depersonalizeCore_ent, if_neg hne, if_pos rfl]
    simp
  · rw [depersonalizeCore_ent, if_neg hne, if_pos rfl]
  · intro x r hr
    rw [hrefs x] at hr
    rcases List.mem_map.mp hr with ⟨r0, _, hr0⟩
    rw [← hr0]
    exact substRef_ne_inl uid (anonToken salt uid) r0

/-- Witness for C2 on the two-entity fixture: depersonalizing user 0
stores the keyed-hash token and rewrites entity 1's reference to user 0. -/
theorem claim2_witness :
    (wStore.ent 0).isDepersonalized = false ∧
    ((depersonalizeCore "salt" wStore 0).ent 0).anonymizedToken
      = some (anonToken "salt" 0) ∧
    ((depersonalizeCore "salt" wStore 0).ent 1).userRefs
      = ((wStore.ent 1).userRefs).map (substRef 0 (anonToken "salt" 0)) ∧
    (∀ r ∈ ((depersonalizeCore "salt" wStore 0).ent 1).userRefs, r ≠ Sum.inl 0) :=
  ⟨rfl,
   (claim2_depersonalize_scrubs "salt" wStore 0 rfl).2.1,
   (claim2_depersonalize_scrubs "salt" wStore 0 rfl).2.2.2.2.1 1,
   fun r hr => (claim2_depersonalize_scrubs "salt" wStore 0 rfl).2.2.2.2.2 1 r hr⟩

/-- C3: both cascades are atomic — when the store cannot commit, the whole
operation rolls back (the state is returned exactly as before) and fails
with `PersistenceError`; when it commits, the soft-delete result has every
reachable entity deleted and the depersonalization result is the full
scrub, so no partial cascade is ever observable. -/
theorem claim3_cascades_atomic :
    ∀ (avail : Bool) (salt : String) (s : Store) (root uid e : EntityId),
      s.WF → root ∈ s.univ →
      (avail = false →
        softDeleteTx avail s root = (s, Except.error PersistenceError.persistenceError) ∧
        depersonalizeTx avail salt s uid
          = (s, Except.error PersistenceError.persistenceError)) ∧
      (avail = true →
        softDeleteTx avail s root
          = ((softDeleteCore s root).1, Except.ok (softDeleteCore s root).2) ∧
        depersonalizeTx avail salt s uid = (depersonalizeCore salt s uid, Except.ok ()) ∧
        ((s.ent root).isDeleted = false → Reach s.children root e →
          (((softDeleteTx avail s root).1).ent e).isDeleted = true)) := by
  intro avail salt s root uid e hwf hr
  constructor
  · intro ha
    subst ha
    exact ⟨by simp [softDeleteTx], by simp [depersonalizeTx]⟩
  · intro ha
    subst ha
    refine ⟨by simp [softDeleteTx], by simp [depersonalizeTx], ?_⟩
    intro hlive hreach
    have hdel := softDeleteCore_reach_deleted hwf hr hlive hreach
    simpa [softDeleteTx] using hdel

/-- Witness for C3 on the two-entity fixture: an unavailable store rolls
back to the exact prior state with a `PersistenceError`, and a committed
run deletes the reachable entity 1. -/
theorem claim3_witness :
    wStore.WF ∧ 0 ∈ wStore.univ ∧
    softDeleteTx false wStore 0 = (wStore, Except.error PersistenceError.persistenceError) ∧
    depersonalizeTx false "salt" wStore 0
      = (wStore, Except.error PersistenceError.persistenceError) ∧
    (((softDeleteTx true wStore 0).1).ent 1).isDeleted = true :=
  ⟨by decide, by decide,
   ((claim3_cascades_atomic false "salt" wStore 0 0 1 (by decide) (by decide)).1 rfl).1,
   ((claim3_cascades_atomic false "salt" wStore 0 0 1 (by decide) (by decide)).1 rfl).2,
   ((claim3_cascades_atomic true "salt" wStore 0 0 1 (by decide) (by decide)).2 rfl).2.2 rfl
     (Reach.tail (Reach.refl 0) (by decide))⟩

/-- C4: discount status evolves monotonically along
scheduled → active → expired under any sequence of scheduler cycles,
`expired` is never left (in particular never for `cancelled`), and a
single operation can produce `cancelled` only out of `scheduled`,
`active` or `cancelled` itself. -/
theorem claim4_discount_status_monotone :
    ∀ (ops : List DiscountOp) (ts : List Nat) (d : Discount) (op : DiscountOp),
      (d.status = DStatus.expired →
        (runDiscountOps ops d).status = DStatus.expired) ∧
      (d.status = DStatus.expired →
        (runDiscountOps ops d).status ≠ DStatus.cancelled) ∧
      statusRank d.status
        ≤ statusRank (runDiscountOps (ts.map DiscountOp.cycle) d).status ∧
      ((applyDiscountOp op d).status = DStatus.cancelled →
        d.status = DStatus.scheduled ∨ d.status = DStatus.active
          ∨ d.status = DStatus.cancelled) := by
  intro ops ts d op
  refine ⟨fun h => runDiscountOps_expired ops d h, ?_, statusRank_runCycles ts d,
    fun h => cancelled_only_from_live op d h⟩
  intro h
  rw [runDiscountOps_expired ops d h]
  simp

/-- Witness for C4: an expired discount stays expired across a cycle and a
cancellation attempt. -/
theorem claim4_witness :
    { badDiscount with status := DStatus.expired }.status = DStatus.expired ∧
    (runDiscountOps [DiscountOp.cycle 7, DiscountOp.cancel]
        { badDiscount with status := DStatus.expired }).status = DStatus.expired :=
  ⟨rfl,
   (claim4_discount_status_monotone [DiscountOp.cycle 7, DiscountOp.cancel] [7]
     { badDiscount with status := DStatus.expired } DiscountOp.cancel).1 rfl⟩

/-- C5 counterexample: an active discount with a malformed range
(`ends_at ≤ starts_at`) and `ends_at ≤ t < starts_at` meets the claim's
"active and t ≥ ends_at becomes expired" premise, yet the scheduler leaves
it unchanged (it also meets the claim's own "t < starts_at stays
unchanged" premise, so the claim as stated demands two different
outcomes at once). -/
theorem claim5_counterexample :
    badDiscount.status = DStatus.active ∧ badDiscount.endsAt ≤ 4 ∧
    4 < badDiscount.startsAt ∧
    stepDiscount 4 badDiscount = badDiscount ∧
    (stepDiscount 4 badDiscount).status ≠ DStatus.expired := by
  decide

/-- C5 (amended): in one scheduler cycle at time `t`, the cycle applies
the per-record transition to every discount in the batch; a scheduled
discount with `starts_at ≤ t < ends_at` becomes active; an active
discount with a well-formed range (`starts_at < ends_at`) and
`ends_at ≤ t` becomes expired; any discount with `t < starts_at`, and any
cancelled discount, is left unchanged. -/
theorem claim5_amended_cycle :
    ∀ (t : Nat) (d : Discount) (ds : List Discount) (i : Nat),
      (runCycle t ds)[i]? = (ds[i]?).map (stepDiscount t) ∧
      (d.status = DStatus.scheduled → d.startsAt ≤ t → t < d.endsAt →
        stepDiscount t d = { d with status := DStatus.active }) ∧
      (d.status = DStatus.active → d.startsAt < d.endsAt → d.endsAt ≤ t →
        stepDiscount t d = { d with status := DStatus.expired }) ∧
      (t < d.startsAt → stepDiscount t d = d) ∧
      (d.status = DStatus.cancelled → stepDiscount t d = d) := by
  intro t d ds i
  refine ⟨by simp [runCycle], ?_, ?_, ?_, fun h => stepDiscount_cancelled t d h⟩
  · intro hs h1 h2
    have hv : ¬ validRange d = false := by
      simp [validRange]
      omega
    unfold stepDiscount
    rw [if_neg hv, hs]
    dsimp only
    rw [if_pos ⟨h1, h2⟩]
  · intro hs hr h1
    have hv : ¬ validRange d = false := by
      simp [validRange]
      omega
    unfold stepDiscount
    rw [if_neg hv, hs]
    dsimp only
    rw [if_pos h1]
  · intro h1
    by_cases hv : validRange d = false
    · exact validRange_false_step t d hv
    · have hlt : d.startsAt < d.endsAt := by
        simpa [validRange] using hv
      unfold stepDiscount
      rw [if_neg hv]
      cases hs : d.status with
      | scheduled =>
          dsimp only
          rw [if_neg (by omega)]
      | active =>
          dsimp only
          rw [if_neg (by omega)]
      | expired => rfl
      | cancelled => rfl

/-- Witness for C5 (amended): a scheduled discount inside its window is
activated by the cycle at time 4. -/
theorem claim5_witness :
    schedDiscount.status = DStatus.scheduled ∧
    schedDiscount.startsAt ≤ 4 ∧ (4 : Nat) < schedDiscount.endsAt ∧
    stepDiscount 4 schedDiscount = { schedDiscount with status := DStatus.active } :=
  ⟨rfl, by decide, by decide,
   (claim5_amended_cycle 4 schedDiscount [] 0).2.1 rfl (by decide) (by decide)⟩

/-- C6: a discount selected by the resolver is an applicable candidate
minimising (final price, scope specificity, starts_at) among all
applicable candidates — lowest final price first, user-specific before
all-users on a price tie, earliest start on a full tie; in particular, of
two discounts both yielding 80 on base 100, one all-users and one scoped
to viewer 7, the resolver selects the viewer-specific one. -/
theorem claim6_resolver_tiebreak :
    (∀ (base : Nat) (viewer : EntityId) (ds : List Discount) (b : Discount),
       resolveBest base viewer ds = some b →
       b ∈ ds ∧ applicableTo viewer b = true ∧
       ∀ d ∈ ds, applicableTo viewer d = true →
         keyLe (resolveKey base b) (resolveKey base d)) ∧
    (finalPrice 100 discountAllUsers = 80 ∧ finalPrice 100 discountThisUser = 80 ∧
     resolveBest 100 7 [discountAllUsers, discountThisUser] = some discountThisUser) := by
  constructor
  · intro base viewer ds b h
    rcases foldl_pickBetter_mem (ds.filter (applicableTo viewer)) none b h with h1 | h1
    · exact absurd h1 (by simp)
    · have hb := List.mem_filter.mp h1
      refine ⟨hb.1, hb.2, ?_⟩
      intro d hd hap
      exact (foldl_pickBetter_min (ds.filter (applicableTo viewer)) none b h).1 d
        (List.mem_filter.mpr ⟨hd, hap⟩)
  · exact ⟨by decide, by decide, by decide⟩

/-- Witness for C6: on the concrete tied pair the selected discount is the
viewer-specific one, and it minimises the key against the other
candidate. -/
theorem claim6_witness :
    resolveBest 100 7 [discountAllUsers, discountThisUser] = some discountThisUser ∧
    discountThisUser ∈ [discountAllUsers, discountThisUser] ∧
    keyLe (resolveKey 100 discountThisUser) (resolveKey 100 discountAllUsers) :=
  ⟨claim6_resolver_tiebreak.2.2.2,
   (claim6_resolver_tiebreak.1 100 7 [discountAllUsers, discountThisUser] discountThisUser
     claim6_resolver_tiebreak.2.2.2).1,
   (claim6_resolver_tiebreak.1 100 7 [discountAllUsers, discountThisUser] discountThisUser
     claim6_resolver_tiebreak.2.2.2).2.2 discountAllUsers (by decide) (by decide)⟩

/-- C9: `postResource` never rejects — a status-200 response resolves with
the parsed JSON body and any other status (including 2xx such as 201)
resolves with the bare numeric status code — whereas `getResource` and
`deleteResource` accept any response with `ok` true and resolve with the
body's `result` field. -/
theorem claim9_postResource_never_rejects :
    ∀ (status : Nat) (body : JsVal),
      (∀ v, RequestsMethods.postResource status body ≠ JsPromise.rejected v) ∧
      (status = 200 →
        RequestsMethods.postResource status body
          = JsPromise.resolved (ChainVal.jsV body)) ∧
      (status ≠ 200 →
        RequestsMethods.postResource status body
          = JsPromise.resolved (ChainVal.jsV (JsVal.num status))) ∧
      (respOk status = true →
        RequestsMethods.getResource status body
          = JsPromise.resolved (ChainVal.jsV (body.getField "result")) ∧
        RequestsMethods.deleteResource status body
          = JsPromise.resolved (ChainVal.jsV (body.getField "result"))) ∧
      (respOk status = false →
        RequestsMethods.getResource status body
          = JsPromise.resolved (ChainVal.jsV (JsVal.num status)) ∧
        RequestsMethods.deleteResource status body
          = JsPromise.resolved (ChainVal.jsV (JsVal.num status))) := by
  intro status body
  refine ⟨?_, ?_, ?_, ?_, ?_⟩
  · intro v
    rw [postResource_eq]
    intro h
    exact JsPromise.noConfusion h
  · intro h
    rw [postResource_eq, if_pos h]
  · intro h
    rw [postResource_eq, if_neg h]
  · intro h
    exact ⟨by rw [getResource_eq, if_pos h], by rw [deleteResource_eq, if_pos h]⟩
  · intro h
    constructor
    · rw [getResource_eq, if_neg]
      simp [h]
    · rw [deleteResource_eq, if_neg]
      simp [h]

/-- Witness for C9 at status 201 (a 2xx success that is not 200): the post
helper resolves with the bare number 201, while the get helper, whose
check is `response.ok`, resolves with the body's `result` field. -/
theorem claim9_witness :
    (201 : Nat) ≠ 200 ∧ respOk 201 = true ∧
    RequestsMethods.postResource 201 (JsVal.obj [("result", JsVal.num 5)])
      = JsPromise.resolved (ChainVal.jsV (JsVal.num 201)) ∧
    RequestsMethods.getResource 201 (JsVal.obj [("result", JsVal.num 5)])
      = JsPromise.resolved
          (ChainVal.jsV ((JsVal.obj [("result", JsVal.num 5)]).getField "result")) :=
  ⟨by decide, by decide,
   (claim9_postResource_never_rejects 201 (JsVal.obj [("result", JsVal.num 5)])).2.2.1
     (by decide),
   ((claim9_postResource_never_rejects 201 (JsVal.obj [("result", JsVal.num 5)])).2.2.2.1
     (by decide)).1⟩

/-- C10: the sign-up handler navigates to "/signIn" for every resolved
value except the exact value 400; since `postResource` resolves failures
to their numeric status code, every non-400 failure status (such as 500)
is treated as a successful registration and navigates. -/
theorem claim10_signup_navigates_unless_400 :
    ∀ (status : Nat) (body : JsVal),
      (∀ v, AuthorizationService.signUp status body = JsPromise.resolved v →
        (∀ w, v = ChainVal.jsV w → w = JsVal.num 400 → False) →
        Registration.registration status body
          = some (NavAction.navigate "/signIn")) ∧
      (status ≠ 400 → status ≠ 200 →
        Registration.registration status body
          = some (NavAction.navigate "/signIn")) ∧
      (status = 400 →
        Registration.registration status body = some NavAction.logError) ∧
      (status = 500 →
        Registration.registration status body
          = some (NavAction.navigate "/signIn")) := by
  intro status body
  have hreg : ∀ v, AuthorizationService.signUp status body = JsPromise.resolved v →
      Registration.registration status body
        = some (Registration.handleSignUpResponse v) := by
    intro v hv
    unfold Registration.registration
    rw [hv]
  have hpost := postResource_eq status body
  refine ⟨?_, ?_, ?_, ?_⟩
  · intro v hv hne
    rw [hreg v hv, handleSignUpResponse_ne_400 v hne]
  · intro h400 h200
    rw [hreg (ChainVal.jsV (JsVal.num status))
      (by rw [show AuthorizationService.signUp status body
            = RequestsMethods.postResource status body from rfl, hpost, if_neg h200])]
    rw [handleSignUpResponse_ne_400]
    intro w hw hn
    rw [hn] at hw
    have := ChainVal.jsV.inj hw
    exact h400 (by
      have := JsVal.num.inj this
      exact this)
  · intro h
    subst h
    rw [hreg (ChainVal.jsV (JsVal.num 400))
      (by rw [show AuthorizationService.signUp 400 body
            = RequestsMethods.postResource 400 body from rfl, hpost, if_neg (by decide)])]
    rfl
  · intro h
    subst h
    rw [hreg (ChainVal.jsV (JsVal.num 500))
      (by rw [show AuthorizationService.signUp 500 body
            = RequestsMethods.postResource 500 body from rfl, hpost, if_neg (by decide)])]
    rfl

/-- Witness for C10 at a 500 response: the handler navigates to the
sign-in page even though the request failed, and at 400 it logs the
error instead. -/
theorem claim10_witness :
    (500 : Nat) ≠ 400 ∧ (500 : Nat) ≠ 200 ∧
    Registration.registration 500 (JsVal.obj [])
      = some (NavAction.navigate "/signIn") ∧
    Registration.registration 400 (JsVal.obj []) = some NavAction.logError :=
  ⟨by decide, by decide,
   (claim10_signup_navigates_unless_400 500 (JsVal.obj [])).2.2.2 rfl,
   (claim10_signup_navigates_unless_400 400 (JsVal.obj [])).2.2.1 rfl⟩

end Claims
